import Mathlib

/-!
Verification of the finite-difference PDE solver demos: a shallow embedding of
the grid construction, the explicit forward-Euler heat stepper, and the CTCS
wave-equation assembly / direct-solve path, together with proofs of the claimed
properties.

The source builds, for each worked example, a uniform grid
(`dx = (x_2 - x_1)/N_x`, `dt = t_f/N_t`, `np.linspace` coordinates), then either
marches an explicit update forward in time (1-D heat) or assembles one dense
linear equation per grid unknown and solves the square system (1-D/2-D wave).
-/

namespace FDM

/-! ### Grid construction

The source computes `dx = (x_2 - x_1) / float(N_x)` and
`x = np.linspace(x_1, x_2, N_x)` with no validation of the axis parameters;
the only failing input is `N_x = 0` (a float division by zero).  -/

/-- Derived step size, exactly as the source computes it:
`dx = (x_2 - x_1) / float(N_x)` (note the divisor is the sample count, not
the sample count minus one). -/
def gridDx {K : Type} [LinearOrderedField K] (s e : K) (n : ℕ) : K :=
  (e - s) / n

/-- Coordinates produced by `np.linspace(s, e, n)`: `n` evenly spaced samples
from `s` to `e` inclusive, so consecutive samples differ by `(e - s)/(n-1)`. -/
def linspace {K : Type} [LinearOrderedField K] (s e : K) (n : ℕ) (j : ℕ) : K :=
  s + (j : K) * ((e - s) / ((n - 1 : ℕ) : K))

/-- Grid construction as the source performs it: compute the step size and the
coordinate sequence.  There is no validation whatsoever; the only input on
which the construction fails is a zero sample count (Python float division by
zero), and that failure is a `ZeroDivisionError`, not a `ConfigurationError`. -/
def gridBuild {K : Type} [LinearOrderedField K] (s e : K) (n : ℕ) :
    Option (K × (ℕ → K)) :=
  if n = 0 then none else some (gridDx s e n, linspace s e n)

/-! ### Explicit forward-Euler heat stepper (1-D heat example)

The source initializes `u = np.zeros((N_t, N_x))`, fills `u[0,:] = g_0(x)`,
then overwrites the full boundary columns `u[:,0] = h_1` and `u[:,-1] = h_2`,
and finally marches
`u[i+1,1:-1] = u[i,1:-1] + (a*dt/dx/dx)*(u[i,:-2] + u[i,2:] - 2*u[i,1:-1])
 + dt*f(t[i], x[1:-1])`
for `i` in `range(N_t - 1)`.  `f` and `g₀` below are the source term and the
initial condition already sampled at the grid points. -/

/-- Time row 0 after the fills: `u[0,:] = g_0(x)`, then `u[:,0] = h_1`, then
`u[:,-1] = h_2` (the later column fills overwrite the initial-condition values
at the two edge entries; `h₂` is written last). -/
def heatRow0 {K : Type} [LinearOrderedField K] (Nx : ℕ) (h₁ h₂ : K)
    (g₀ : ℕ → K) : ℕ → K := fun j =>
  if j = Nx - 1 then h₂ else if j = 0 then h₁ else g₀ j

/-- One forward-Euler update producing time row `i+1` from time row `prev`:
interior entries get the explicit stencil update, the two edge entries hold
the pre-filled boundary values `h₁`, `h₂`. -/
def heatStep {K : Type} [LinearOrderedField K] (Nx : ℕ) (a dt dx h₁ h₂ : K)
    (f : ℕ → ℕ → K) (i : ℕ) (prev : ℕ → K) : ℕ → K := fun j =>
  if j = Nx - 1 then h₂
  else if j = 0 then h₁
  else if j < Nx - 1 then
    prev j + a * dt / dx / dx * (prev (j - 1) + prev (j + 1) - 2 * prev j)
      + dt * f i j
  else 0

/-- The field produced by the explicit heat path: row 0 from the fills, each
later row from the forward-Euler update applied to the previous row. -/
def heatU {K : Type} [LinearOrderedField K] (Nx : ℕ) (a dt dx h₁ h₂ : K)
    (f : ℕ → ℕ → K) (g₀ : ℕ → K) : ℕ → ℕ → K
  | 0 => heatRow0 Nx h₁ h₂ g₀
  | i + 1 => heatStep Nx a dt dx h₁ h₂ f i (heatU Nx a dt dx h₁ h₂ f g₀ i)

section HeatLemmas

variable {K : Type} [LinearOrderedField K] (Nx : ℕ) (a dt dx h₁ h₂ : K)
variable (f : ℕ → ℕ → K) (g₀ : ℕ → K)

lemma heatU_last_col (i : ℕ) :
    heatU Nx a dt dx h₁ h₂ f g₀ i (Nx - 1) = h₂ := by
  cases i with
  | zero => simp [heatU, heatRow0]
  | succ n => simp [heatU, heatStep]

lemma heatU_first_col (hNx : Nx - 1 ≠ 0) (i : ℕ) :
    heatU Nx a dt dx h₁ h₂ f g₀ i 0 = h₁ := by
  cases i with
  | zero =>
    simp only [heatU, heatRow0]
    rw [if_neg (fun h => hNx h.symm)]
    simp
  | succ n =>
    simp only [heatU, heatStep]
    rw [if_neg (fun h => hNx h.symm)]
    simp

lemma heatU_interior (i j : ℕ) (hj0 : j ≠ 0) (hjlt : j < Nx - 1) :
    heatU Nx a dt dx h₁ h₂ f g₀ (i + 1) j =
      heatU Nx a dt dx h₁ h₂ f g₀ i j
        + a * dt / dx / dx *
          (heatU Nx a dt dx h₁ h₂ f g₀ i (j - 1)
            + heatU Nx a dt dx h₁ h₂ f g₀ i (j + 1)
            - 2 * heatU Nx a dt dx h₁ h₂ f g₀ i j)
        + dt * f i j := by
  show heatStep Nx a dt dx h₁ h₂ f i (heatU Nx a dt dx h₁ h₂ f g₀ i) j = _
  unfold heatStep
  rw [if_neg (by omega), if_neg hj0, if_pos hjlt]

lemma heatU_row0_interior (j : ℕ) (hj0 : j ≠ 0) (hjlt : j ≠ Nx - 1) :
    heatU Nx a dt dx h₁ h₂ f g₀ 0 j = g₀ j := by
  show heatRow0 Nx h₁ h₂ g₀ j = g₀ j
  unfold heatRow0
  rw [if_neg hjlt, if_neg hj0]

end HeatLemmas

/-! ### Claims about grid construction -/

/-- Claim C7, counterexample: grid construction does not fail when
`sample_count < 2` (here `sample_count = 1`, `start = 0 < 1 = end`), and an
accepted axis (here `sample_count = 2`, `end = 0 ≤ 1 = start`) can have a
non-positive derived step size. -/
theorem grid_no_validation_cex :
    (gridBuild (0 : ℚ) 1 1).isSome = true ∧
      (gridBuild (1 : ℚ) 0 2).isSome = true ∧ gridDx (1 : ℚ) 0 2 ≤ 0 := by
  refine ⟨by decide, by decide, ?_⟩
  norm_num [gridDx]

/-- Claim C7 (amended): grid construction performs no validation — every axis
with `sample_count ≥ 1` is accepted regardless of how `end` compares to
`start` (only `sample_count = 0` fails, with a division by zero, not a
`ConfigurationError`) — and the derived step size `(end - start)/count` of an
accepted axis is strictly positive exactly when `end > start`. -/
theorem grid_build_total_step_sign {K : Type} [LinearOrderedField K]
    (s e : K) (n : ℕ) (hn : 1 ≤ n) :
    (gridBuild s e n).isSome = true ∧ (0 < gridDx s e n ↔ s < e) := by
  have hn0 : n ≠ 0 := by omega
  have hnK : (0 : K) < (n : K) := by exact_mod_cast Nat.pos_of_ne_zero hn0
  refine ⟨by simp [gridBuild, hn0], ?_⟩
  unfold gridDx
  constructor
  · intro h
    by_contra hc
    push_neg at hc
    have : (e - s) / (n : K) ≤ 0 :=
      div_nonpos_of_nonpos_of_nonneg (by linarith) (le_of_lt hnK)
    linarith
  · intro h
    exact div_pos (by linarith) hnK

/-- Claim C7 witness: concrete instance of the amended statement. -/
theorem grid_build_total_step_sign_witness :
    (gridBuild (0 : ℚ) 2 3).isSome = true ∧ (0 < gridDx (0 : ℚ) 2 3 ↔ (0:ℚ) < 2) :=
  grid_build_total_step_sign (0 : ℚ) 2 3 (by norm_num)

/-- Claim C10: for an axis of `count ≥ 2` samples from `start` to `end`
(`start < end`), consecutive `np.linspace` coordinates differ by
`(end - start)/(count - 1)`, which is strictly greater than the derived step
size `(end - start)/count` used in the finite-difference coefficients — so the
`dt`, `dx` (and `dy`) appearing in the stencils never equal the actual spacing
of the coordinate sequences. -/
theorem linspace_spacing_exceeds_dx {K : Type} [LinearOrderedField K]
    (s e : K) (n j : ℕ) (hn : 2 ≤ n) (hse : s < e) :
    linspace s e n (j + 1) - linspace s e n j = (e - s) / ((n - 1 : ℕ) : K) ∧
      gridDx s e n < (e - s) / ((n - 1 : ℕ) : K) := by
  constructor
  · unfold linspace
    push_cast
    ring
  · unfold gridDx
    have h1 : (0 : K) < ((n - 1 : ℕ) : K) := by
      exact_mod_cast Nat.sub_pos_of_lt hn
    have h2 : ((n - 1 : ℕ) : K) < (n : K) := by
      exact_mod_cast Nat.sub_lt (by omega) one_pos
    exact div_lt_div_of_pos_left (by linarith) h1 h2

/-- Claim C10 witness: the axis from 0 to 1 with 2 samples has spacing 1 while
the derived step size is 1/2. -/
theorem linspace_spacing_exceeds_dx_witness :
    linspace (0 : ℚ) 1 2 (0 + 1) - linspace (0 : ℚ) 1 2 0 = (1 - 0) / ((2 - 1 : ℕ) : ℚ) ∧
      gridDx (0 : ℚ) 1 2 < (1 - 0) / ((2 - 1 : ℕ) : ℚ) :=
  linspace_spacing_exceeds_dx (0 : ℚ) 1 2 0 (by norm_num) (by norm_num)

/-! ### Claims about the explicit heat stepper -/

/-- Claim C2: for every time index `i` and interior spatial index
`j ∈ [1, N_x - 2]`, the forward-Euler stepper sets
`u[i+1][j] = u[i][j] + (a*dt/dx^2)*(u[i][j+1] + u[i][j-1] - 2*u[i][j])
 + dt*f(t_i, x_j)`, and the new row's edge entries keep the fixed spatial
boundary values `h₁` and `h₂`. -/
theorem heat_forward_euler_update {K : Type} [LinearOrderedField K]
    (Nx : ℕ) (a dt dx h₁ h₂ : K) (f : ℕ → ℕ → K) (g₀ : ℕ → K)
    (hNx : 2 ≤ Nx) (i j : ℕ) (hj1 : 1 ≤ j) (hj2 : j ≤ Nx - 2) :
    heatU Nx a dt dx h₁ h₂ f g₀ (i + 1) j =
      heatU Nx a dt dx h₁ h₂ f g₀ i j
        + a * dt / dx / dx *
          (heatU Nx a dt dx h₁ h₂ f g₀ i (j + 1)
            + heatU Nx a dt dx h₁ h₂ f g₀ i (j - 1)
            - 2 * heatU Nx a dt dx h₁ h₂ f g₀ i j)
        + dt * f i j ∧
      heatU Nx a dt dx h₁ h₂ f g₀ (i + 1) 0 = h₁ ∧
      heatU Nx a dt dx h₁ h₂ f g₀ (i + 1) (Nx - 1) = h₂ := by
  refine ⟨?_, heatU_first_col Nx a dt dx h₁ h₂ f g₀ (by omega) (i + 1),
    heatU_last_col Nx a dt dx h₁ h₂ f g₀ (i + 1)⟩
  rw [heatU_interior Nx a dt dx h₁ h₂ f g₀ i j (by omega) (by omega)]
  ring

/-- Claim C2 witness: concrete instance on a three-point spatial grid. -/
theorem heat_forward_euler_update_witness :
    heatU 3 (1 : ℚ) 1 1 5 7 (fun _ _ => 0) (fun j => j) 1 1 =
      heatU 3 (1 : ℚ) 1 1 5 7 (fun _ _ => 0) (fun j => j) 0 1
        + 1 * 1 / 1 / 1 *
          (heatU 3 (1 : ℚ) 1 1 5 7 (fun _ _ => 0) (fun j => j) 0 (1 + 1)
            + heatU 3 (1 : ℚ) 1 1 5 7 (fun _ _ => 0) (fun j => j) 0 (1 - 1)
            - 2 * heatU 3 (1 : ℚ) 1 1 5 7 (fun _ _ => 0) (fun j => j) 0 1)
        + 1 * (fun (_ _ : ℕ) => (0:ℚ)) 0 1 ∧
      heatU 3 (1 : ℚ) 1 1 5 7 (fun _ _ => 0) (fun j => j) 1 0 = 5 ∧
      heatU 3 (1 : ℚ) 1 1 5 7 (fun _ _ => 0) (fun j => j) 1 (3 - 1) = 7 :=
  heat_forward_euler_update 3 (1 : ℚ) 1 1 5 7 (fun _ _ => 0) (fun j => j)
    (by norm_num) 0 1 (by norm_num) (by norm_num)

/-- Claim C9: the spatial-boundary fill runs after the initial-condition fill,
so the completed field has `u[0][0] = h₁` and `u[0][N_x-1] = h₂` for every
choice of `g₀`, `h₁`, `h₂`; the time-0 row equals `g₀` at every interior
spatial index, and at a corner point it differs from `g₀` whenever `g₀`
disagrees with the boundary value there. -/
theorem heat_boundary_overwrites_initial {K : Type} [LinearOrderedField K]
    (Nx : ℕ) (a dt dx h₁ h₂ : K) (f : ℕ → ℕ → K) (g₀ : ℕ → K)
    (hNx : 2 ≤ Nx) :
    heatU Nx a dt dx h₁ h₂ f g₀ 0 0 = h₁ ∧
      heatU Nx a dt dx h₁ h₂ f g₀ 0 (Nx - 1) = h₂ ∧
      (∀ j, 1 ≤ j → j ≤ Nx - 2 → heatU Nx a dt dx h₁ h₂ f g₀ 0 j = g₀ j) ∧
      (g₀ 0 ≠ h₁ → heatU Nx a dt dx h₁ h₂ f g₀ 0 0 ≠ g₀ 0) ∧
      (g₀ (Nx - 1) ≠ h₂ → heatU Nx a dt dx h₁ h₂ f g₀ 0 (Nx - 1) ≠ g₀ (Nx - 1)) := by
  have h0 : heatU Nx a dt dx h₁ h₂ f g₀ 0 0 = h₁ :=
    heatU_first_col Nx a dt dx h₁ h₂ f g₀ (by omega) 0
  have hl : heatU Nx a dt dx h₁ h₂ f g₀ 0 (Nx - 1) = h₂ :=
    heatU_last_col Nx a dt dx h₁ h₂ f g₀ 0
  refine ⟨h0, hl, ?_, ?_, ?_⟩
  · intro j hj1 hj2
    exact heatU_row0_interior Nx a dt dx h₁ h₂ f g₀ j (by omega) (by omega)
  · intro hne
    rw [h0]
    exact fun h => hne h.symm
  · intro hne
    rw [hl]
    exact fun h => hne h.symm

/-- Claim C9 witness: with `g₀ ≡ 1` and boundary values 0, the corners of the
time-0 row hold the boundary values, not `g₀`. -/
theorem heat_boundary_overwrites_initial_witness :
    heatU 3 (1 : ℚ) 1 1 0 0 (fun _ _ => 0) (fun _ => 1) 0 0 = 0 ∧
      heatU 3 (1 : ℚ) 1 1 0 0 (fun _ _ => 0) (fun _ => 1) 0 (3 - 1) = 0 ∧
      (∀ j, 1 ≤ j → j ≤ 3 - 2 →
        heatU 3 (1 : ℚ) 1 1 0 0 (fun _ _ => 0) (fun _ => 1) 0 j = 1) ∧
      ((1 : ℚ) ≠ 0 → heatU 3 (1 : ℚ) 1 1 0 0 (fun _ _ => 0) (fun _ => 1) 0 0 ≠ 1) ∧
      ((1 : ℚ) ≠ 0 → heatU 3 (1 : ℚ) 1 1 0 0 (fun _ _ => 0) (fun _ => 1) 0 (3 - 1) ≠ 1) :=
  heat_boundary_overwrites_initial 3 (1 : ℚ) 1 1 0 0 (fun _ _ => 0) (fun _ => 1)
    (by norm_num)

/-- Claim C6: the explicit heat stepper with stability ratio
`0 ≤ a*dt/dx² ≤ 1/2` and identically zero source keeps the maximum absolute
value of each time row non-increasing (discrete maximum principle). -/
theorem heat_max_principle {K : Type} [LinearOrderedField K]
    (Nx : ℕ) (a dt dx h₁ h₂ : K) (f : ℕ → ℕ → K) (g₀ : ℕ → K)
    (hNx : 1 ≤ Nx) (hr0 : 0 ≤ a * dt / dx / dx) (hr12 : a * dt / dx / dx ≤ 1 / 2)
    (hf : ∀ i j, f i j = 0) (i : ℕ) :
    (Finset.range Nx).sup' (Finset.nonempty_range_iff.mpr (by omega))
        (fun j => |heatU Nx a dt dx h₁ h₂ f g₀ (i + 1) j|) ≤
      (Finset.range Nx).sup' (Finset.nonempty_range_iff.mpr (by omega))
        (fun j => |heatU Nx a dt dx h₁ h₂ f g₀ i j|) := by
  set r := a * dt / dx / dx with hr
  set u := heatU Nx a dt dx h₁ h₂ f g₀ with hu
  apply Finset.sup'_le
  intro j hj
  rw [Finset.mem_range] at hj
  have hM : ∀ b, b < Nx →
      |u i b| ≤ (Finset.range Nx).sup' (Finset.nonempty_range_iff.mpr (by omega))
        (fun j => |u i j|) :=
    fun b hb => Finset.le_sup' (fun j => |u i j|) (Finset.mem_range.mpr hb)
  by_cases hje : j = Nx - 1
  · subst hje
    rw [show u (i + 1) (Nx - 1) = h₂ from heatU_last_col Nx a dt dx h₁ h₂ f g₀ (i + 1)]
    have := hM (Nx - 1) (by omega)
    rwa [show u i (Nx - 1) = h₂ from heatU_last_col Nx a dt dx h₁ h₂ f g₀ i] at this
  · by_cases hj0 : j = 0
    · subst hj0
      have hne : Nx - 1 ≠ 0 := fun h => hje h.symm
      rw [show u (i + 1) 0 = h₁ from heatU_first_col Nx a dt dx h₁ h₂ f g₀ hne (i + 1)]
      have := hM 0 (by omega)
      rwa [show u i 0 = h₁ from heatU_first_col Nx a dt dx h₁ h₂ f g₀ hne i] at this
    · have hjlt : j < Nx - 1 := by omega
      have hstep : u (i + 1) j =
          (1 - 2 * r) * u i j + r * u i (j - 1) + r * u i (j + 1) := by
        rw [show u (i + 1) j = _ from
          heatU_interior Nx a dt dx h₁ h₂ f g₀ i j hj0 hjlt, hf]
        ring
      rw [hstep]
      have hA := hM j (by omega)
      have hB := hM (j - 1) (by omega)
      have hC := hM (j + 1) (by omega)
      have h2r : 0 ≤ 1 - 2 * r := by linarith
      calc |(1 - 2 * r) * u i j + r * u i (j - 1) + r * u i (j + 1)|
          ≤ |(1 - 2 * r) * u i j + r * u i (j - 1)| + |r * u i (j + 1)| :=
            abs_add _ _
        _ ≤ |(1 - 2 * r) * u i j| + |r * u i (j - 1)| + |r * u i (j + 1)| := by
            have := abs_add ((1 - 2 * r) * u i j) (r * u i (j - 1))
            linarith
        _ = (1 - 2 * r) * |u i j| + r * |u i (j - 1)| + r * |u i (j + 1)| := by
            rw [abs_mul, abs_mul, abs_mul, abs_of_nonneg h2r, abs_of_nonneg hr0]
        _ ≤ (1 - 2 * r) * ((Finset.range Nx).sup'
              (Finset.nonempty_range_iff.mpr (by omega)) (fun j => |u i j|))
            + r * ((Finset.range Nx).sup'
              (Finset.nonempty_range_iff.mpr (by omega)) (fun j => |u i j|))
            + r * ((Finset.range Nx).sup'
              (Finset.nonempty_range_iff.mpr (by omega)) (fun j => |u i j|)) := by
            have t1 := mul_le_mul_of_nonneg_left hA h2r
            have t2 := mul_le_mul_of_nonneg_left hB hr0
            have t3 := mul_le_mul_of_nonneg_left hC hr0
            linarith
        _ = (Finset.range Nx).sup'
              (Finset.nonempty_range_iff.mpr (by omega)) (fun j => |u i j|) := by
            ring

/-- Claim C6 witness: concrete instance with ratio `1/4` on a three-point
grid, first step. -/
theorem heat_max_principle_witness :
    (Finset.range 3).sup' (Finset.nonempty_range_iff.mpr (by omega))
        (fun j => |heatU 3 (1 : ℚ) 1 2 0 0 (fun _ _ => 0) (fun j => j) (0 + 1) j|) ≤
      (Finset.range 3).sup' (Finset.nonempty_range_iff.mpr (by omega))
        (fun j => |heatU 3 (1 : ℚ) 1 2 0 0 (fun _ _ => 0) (fun j => j) 0 j|) :=
  heat_max_principle 3 (1 : ℚ) 1 2 0 0 (fun _ _ => 0) (fun j => j)
    (by norm_num) (by norm_num) (by norm_num) (fun _ _ => rfl) 0

/-! ### The concrete 1-D heat scenario

`x ∈ [-3, 3]`, `α = 0.1`, `N_x = 21`, `N_t = 100`, `t_f = 20` (so
`dt = 20/100` and `dx = 6/21`), Dirichlet `h₁ = h₂ = 0`, initial condition
`g₀(x) = sin(2πx/(x_2 - x_1))`. -/

/-- Spatial coordinates `np.linspace(-3, 3, 21)` of the heat example. -/
noncomputable def heatX : ℕ → ℝ := linspace (-3) 3 21

/-- Initial condition of the heat example: `g_0 = sin(2πx/(x_2 - x_1))`. -/
noncomputable def g0heat : ℝ → ℝ := fun x => Real.sin (2 * Real.pi * x / (3 - (-3)))

/-- The field computed by the heat example's forward-Euler loop. -/
noncomputable def heatField : ℕ → ℕ → ℝ :=
  heatU 21 (1 / 10) (20 / 100) ((3 - (-3)) / 21) 0 0 (fun _ _ => 0)
    (fun j => g0heat (heatX j))

lemma g0heat_left : g0heat (heatX 0) = 0 := by
  have hx : heatX 0 = -3 := by
    simp [heatX, linspace]
  rw [hx, g0heat,
    show 2 * Real.pi * (-3) / (3 - (-3)) = -Real.pi by ring]
  simp [Real.sin_pi]

lemma g0heat_right : g0heat (heatX 20) = 0 := by
  have hx : heatX 20 = 3 := by
    simp only [heatX, linspace]
    norm_num
  rw [hx, g0heat,
    show 2 * Real.pi * 3 / (3 - (-3)) = Real.pi by ring]
  exact Real.sin_pi

/-- Claim C8: in the concrete 1-D heat scenario, after the stepper completes,
the time-0 row of the field equals `g₀` sampled at every spatial coordinate
(the boundary overwrite is invisible because `g₀` vanishes at `x = ±3`), and
the first and last spatial columns are 0 at every time index. -/
theorem heat_scenario_initial_and_boundary :
    (∀ j, j < 21 → heatField 0 j = g0heat (heatX j)) ∧
      (∀ i, i < 100 → heatField i 0 = 0 ∧ heatField i 20 = 0) := by
  constructor
  · intro j hj
    by_cases hj0 : j = 0
    · subst hj0
      rw [show heatField 0 0 = 0 from
        heatU_first_col 21 (1/10 : ℝ) (20/100) ((3 - (-3))/21) 0 0 (fun _ _ => 0)
          (fun j => g0heat (heatX j)) (by norm_num) 0]
      exact g0heat_left.symm
    · by_cases hj20 : j = 20
      · subst hj20
        rw [show heatField 0 20 = 0 from
          heatU_last_col 21 (1/10 : ℝ) (20/100) ((3 - (-3))/21) 0 0 (fun _ _ => 0)
            (fun j => g0heat (heatX j)) 0]
        exact g0heat_right.symm
      · exact heatU_row0_interior 21 (1/10 : ℝ) (20/100) ((3 - (-3))/21) 0 0
          (fun _ _ => 0) (fun j => g0heat (heatX j)) j hj0 (by omega)
  · intro i _
    exact ⟨heatU_first_col 21 (1/10 : ℝ) (20/100) ((3 - (-3))/21) 0 0 (fun _ _ => 0)
        (fun j => g0heat (heatX j)) (by norm_num) i,
      heatU_last_col 21 (1/10 : ℝ) (20/100) ((3 - (-3))/21) 0 0 (fun _ _ => 0)
        (fun j => g0heat (heatX j)) i⟩

/-- Claim C8 witness: concrete sample points of the scenario conclusion. -/
theorem heat_scenario_initial_and_boundary_witness :
    heatField 0 5 = g0heat (heatX 5) ∧ heatField 7 0 = 0 ∧ heatField 7 20 = 0 :=
  ⟨heat_scenario_initial_and_boundary.1 5 (by norm_num),
    (heat_scenario_initial_and_boundary.2 7 (by norm_num)).1,
    (heat_scenario_initial_and_boundary.2 7 (by norm_num)).2⟩

/-! ### CTCS assembly of the 1-D wave problem

The source loops over interior `(i, j)` and accumulates, for each, a dense
coefficient array (`mat[..] += ..` on `np.zeros((N_t, N_x))`) together with a
right-hand side, then appends one Dirichlet equation per time-0 index, one
Neumann equation per interior time-0 index, and one pinning equation per
boundary column entry at `i ≥ 1`; finally everything is flattened into an
`(N_t*N_x) × (N_t*N_x)` matrix and solved with `np.linalg.solve`.  `f`, `g₀`
and `g₁` below are the source, the initial value and the initial velocity
already sampled at the grid points. -/

/-- One assembled linear equation: a dense coefficient array over the grid
(represented as a function) plus a right-hand-side scalar. -/
structure Eqn (K : Type) where
  coeff : ℕ → ℕ → K
  rhs : K

/-- One `mat[p, q] += v` contribution to a coefficient array. -/
def delta {K : Type} [LinearOrderedField K] (p q : ℕ) (v : K) : ℕ → ℕ → K :=
  fun a b => if a = p ∧ b = q then v else 0

/-- The interior CTCS stencil equation centered at `(i, j)`:
`mat[i,j] += -2/dt/dt`, `mat[i∓1,j] += 1/dt/dt`, `mat[i,j] += (c*c/dx/dx)*2`,
`mat[i,j±1] += -(c*c/dx/dx)`; right-hand side `f(t_i, x_j)`. -/
def stencilEqn {K : Type} [LinearOrderedField K] (dt dx c : K)
    (f : ℕ → ℕ → K) (i j : ℕ) : Eqn K :=
  { coeff := delta i j (-2 / dt / dt) + delta (i - 1) j (1 / dt / dt)
      + delta (i + 1) j (1 / dt / dt) + delta i j (c * c / dx / dx * 2)
      + delta i (j + 1) (-(c * c / dx / dx)) + delta i (j - 1) (-(c * c / dx / dx)),
    rhs := f i j }

/-- The initial-value Dirichlet equation at `(0, j)`: coefficient 1 at
`(0, j)`, right-hand side `g₀(x_j)`. -/
def dirichletEqn {K : Type} [LinearOrderedField K] (g₀ : ℕ → K) (j : ℕ) : Eqn K :=
  { coeff := delta 0 j 1, rhs := g₀ j }

/-- The initial-velocity Neumann equation at interior `j`: coefficient `+1` at
`(1, j)` and `-1` at `(0, j)`; the right-hand side the source appends is
`g₁(x_j)` — with no `dt` factor. -/
def neumannEqn {K : Type} [LinearOrderedField K] (g₁ : ℕ → K) (j : ℕ) : Eqn K :=
  { coeff := delta 1 j 1 + delta 0 j (-1), rhs := g₁ j }

/-- The left spatial-boundary equation at `(i, 0)`: coefficient 1, right-hand
side `h₁`. -/
def leftBoundEqn {K : Type} [LinearOrderedField K] (h₁ : K) (i : ℕ) : Eqn K :=
  { coeff := delta i 0 1, rhs := h₁ }

/-- The right spatial-boundary equation at `(i, N_x - 1)`: coefficient 1,
right-hand side `h₂`. -/
def rightBoundEqn {K : Type} [LinearOrderedField K] (Nx : ℕ) (h₂ : K) (i : ℕ) : Eqn K :=
  { coeff := delta i (Nx - 1) 1, rhs := h₂ }

/-- The stencil equations, in emission order: `i` in `range(1, N_t-1)`, `j` in
`range(1, N_x-1)`. -/
def stencilEqs {K : Type} [LinearOrderedField K] (Nt Nx : ℕ) (dt dx c : K)
    (f : ℕ → ℕ → K) : List (Eqn K) :=
  (List.range (Nt - 1 - 1)).flatMap fun a =>
    (List.range (Nx - 1 - 1)).map fun b => stencilEqn dt dx c f (a + 1) (b + 1)

/-- The initial-value Dirichlet equations: `j` in `range(0, N_x)`. -/
def dirichletEqs {K : Type} [LinearOrderedField K] (Nx : ℕ) (g₀ : ℕ → K) :
    List (Eqn K) :=
  (List.range Nx).map fun j => dirichletEqn g₀ j

/-- The initial-velocity Neumann equations: `j` in `range(1, N_x-1)`. -/
def neumannEqs {K : Type} [LinearOrderedField K] (Nx : ℕ) (g₁ : ℕ → K) :
    List (Eqn K) :=
  (List.range (Nx - 1 - 1)).map fun b => neumannEqn g₁ (b + 1)

/-- The left boundary-column equations: `i` in `range(1, N_t)`. -/
def leftBoundEqs {K : Type} [LinearOrderedField K] (Nt : ℕ) (h₁ : K) :
    List (Eqn K) :=
  (List.range (Nt - 1)).map fun a => leftBoundEqn h₁ (a + 1)

/-- The right boundary-column equations: `i` in `range(1, N_t)`. -/
def rightBoundEqs {K : Type} [LinearOrderedField K] (Nt Nx : ℕ) (h₂ : K) :
    List (Eqn K) :=
  (List.range (Nt - 1)).map fun a => rightBoundEqn Nx h₂ (a + 1)

/-- All equations of the 1-D wave assembly, in the order the source appends
them: stencils, then IVP Dirichlet, then IVP Neumann, then the two
spatial-boundary loops. -/
def waveEqs {K : Type} [LinearOrderedField K] (Nt Nx : ℕ) (dt dx c h₁ h₂ : K)
    (f : ℕ → ℕ → K) (g₀ g₁ : ℕ → K) : List (Eqn K) :=
  stencilEqs Nt Nx dt dx c f ++
    (dirichletEqs Nx g₀ ++ (neumannEqs Nx g₁ ++
      (leftBoundEqs Nt h₁ ++ rightBoundEqs Nt Nx h₂)))

/-- The dot product of a coefficient array with a field, over the full
`N_t × N_x` grid — the left-hand side of one row of the flattened system. -/
def dot {K : Type} [LinearOrderedField K] (Nt Nx : ℕ) (m u : ℕ → ℕ → K) : K :=
  ∑ a ∈ Finset.range Nt, ∑ b ∈ Finset.range Nx, m a b * u a b

/-- A field satisfies the assembled system when every equation's coefficients
dotted with the field give that equation's right-hand side — the exact
round-trip property of a solution of the flattened square system. -/
def SatisfiesAll {K : Type} [LinearOrderedField K] (Nt Nx : ℕ)
    (eqs : List (Eqn K)) (u : ℕ → ℕ → K) : Prop :=
  ∀ e ∈ eqs, dot Nt Nx e.coeff u = e.rhs

section DotLemmas

variable {K : Type} [LinearOrderedField K]

lemma dot_add (Nt Nx : ℕ) (m₁ m₂ u : ℕ → ℕ → K) :
    dot Nt Nx (m₁ + m₂) u = dot Nt Nx m₁ u + dot Nt Nx m₂ u := by
  unfold dot
  rw [← Finset.sum_add_distrib]
  apply Finset.sum_congr rfl
  intro a _
  rw [← Finset.sum_add_distrib]
  apply Finset.sum_congr rfl
  intro b _
  simp [add_mul]

lemma dot_delta (Nt Nx p q : ℕ) (v : K) (u : ℕ → ℕ → K)
    (hp : p < Nt) (hq : q < Nx) :
    dot Nt Nx (delta p q v) u = v * u p q := by
  unfold dot delta
  rw [Finset.sum_eq_single_of_mem p (Finset.mem_range.mpr hp)]
  · rw [Finset.sum_eq_single_of_mem q (Finset.mem_range.mpr hq)]
    · simp
    · intro b _ hb
      simp [hb]
  · intro a _ ha
    apply Finset.sum_eq_zero
    intro b _
    simp [ha]

lemma dot_stencilEqn (Nt Nx : ℕ) (dt dx c : K) (f : ℕ → ℕ → K) (i j : ℕ)
    (u : ℕ → ℕ → K) (hi : i + 1 < Nt) (hj : j + 1 < Nx) :
    dot Nt Nx (stencilEqn dt dx c f i j).coeff u =
      (-2 / dt / dt) * u i j + (1 / dt / dt) * u (i - 1) j
        + (1 / dt / dt) * u (i + 1) j + (c * c / dx / dx * 2) * u i j
        + (-(c * c / dx / dx)) * u i (j + 1) + (-(c * c / dx / dx)) * u i (j - 1) := by
  unfold stencilEqn
  simp only [dot_add]
  rw [dot_delta Nt Nx i j _ u (by omega) (by omega),
    dot_delta Nt Nx (i - 1) j _ u (by omega) (by omega),
    dot_delta Nt Nx (i + 1) j _ u (by omega) (by omega),
    dot_delta Nt Nx i j (c * c / dx / dx * 2) u (by omega) (by omega),
    dot_delta Nt Nx i (j + 1) _ u (by omega) (by omega),
    dot_delta Nt Nx i (j - 1) _ u (by omega) (by omega)]

lemma dot_dirichletEqn (Nt Nx : ℕ) (g₀ : ℕ → K) (j : ℕ) (u : ℕ → ℕ → K)
    (hNt : 0 < Nt) (hj : j < Nx) :
    dot Nt Nx (dirichletEqn g₀ j).coeff u = u 0 j := by
  unfold dirichletEqn
  rw [dot_delta Nt Nx 0 j 1 u hNt hj, one_mul]

lemma dot_neumannEqn (Nt Nx : ℕ) (g₁ : ℕ → K) (j : ℕ) (u : ℕ → ℕ → K)
    (hNt : 1 < Nt) (hj : j < Nx) :
    dot Nt Nx (neumannEqn g₁ j).coeff u = u 1 j - u 0 j := by
  unfold neumannEqn
  rw [dot_add, dot_delta Nt Nx 1 j 1 u hNt hj,
    dot_delta Nt Nx 0 j (-1) u (by omega) hj]
  ring

lemma dot_leftBoundEqn (Nt Nx : ℕ) (h₁ : K) (i : ℕ) (u : ℕ → ℕ → K)
    (hi : i < Nt) (hNx : 0 < Nx) :
    dot Nt Nx (leftBoundEqn h₁ i).coeff u = u i 0 := by
  unfold leftBoundEqn
  rw [dot_delta Nt Nx i 0 1 u hi hNx, one_mul]

lemma dot_rightBoundEqn (Nt Nx : ℕ) (h₂ : K) (i : ℕ) (u : ℕ → ℕ → K)
    (hi : i < Nt) (hNx : 0 < Nx) :
    dot Nt Nx (rightBoundEqn Nx h₂ i).coeff u = u i (Nx - 1) := by
  unfold rightBoundEqn
  rw [dot_delta Nt Nx i (Nx - 1) 1 u hi (by omega), one_mul]

end DotLemmas

/-! ### Index sets of the two assembly components

The set of grid indices at which the stencil loop emits an equation, and the
set of grid indices at which the boundary-condition loops emit theirs (the
Dirichlet and Neumann loops both run along the time-0 slice; the two
boundary-column loops along the spatial edges for `i ≥ 1`). -/

/-- Indices addressed by the interior stencil loop:
`range(1, N_t-1) × range(1, N_x-1)`. -/
def stencilIdxSet (Nt Nx : ℕ) : Finset (ℕ × ℕ) :=
  Finset.Ico 1 (Nt - 1) ×ˢ Finset.Ico 1 (Nx - 1)

/-- Indices addressed by the boundary/initial-condition loops: the time-0
slice (`IVP Dirichlet` over `range(0, N_x)` and `IVP Neumann` over
`range(1, N_x-1)`) and the two boundary columns over `range(1, N_t)`. -/
def boundaryIdxSet (Nt Nx : ℕ) : Finset (ℕ × ℕ) :=
  (({0} : Finset ℕ) ×ˢ Finset.range Nx) ∪
    (({0} : Finset ℕ) ×ˢ Finset.Ico 1 (Nx - 1)) ∪
    (Finset.Ico 1 Nt ×ˢ ({0} : Finset ℕ)) ∪
    (Finset.Ico 1 Nt ×ˢ ({Nx - 1} : Finset ℕ))

/-- The full unknown index set of the `N_t × N_x` grid. -/
def fullIdxSet (Nt Nx : ℕ) : Finset (ℕ × ℕ) :=
  Finset.range Nt ×ˢ Finset.range Nx

lemma length_flatMap_map {α β γ : Type} (l : List α) (m : List β) (g : α → β → γ) :
    (l.flatMap fun a => m.map (g a)).length = l.length * m.length := by
  induction l with
  | nil => simp
  | cons a t ih => simp [List.flatMap_cons, ih, Nat.succ_mul, Nat.add_comm]

/-! ### Claims about the assembly's counts and index sets -/

/-- Claim C1, counterexample: on the valid grid `N_t = 2`, `N_x = 3`, the
unknown index `(1, 1)` — the interior of the final time row — is addressed
neither by the stencil loop nor by any boundary-condition loop, so the two
index sets do not cover the full unknown index set. -/
theorem wave_partition_gap_cex :
    (1, 1) ∈ fullIdxSet 2 3 ∧
      (1, 1) ∉ stencilIdxSet 2 3 ∪ boundaryIdxSet 2 3 := by
  constructor
  · decide
  · decide

/-- Claim C1 (amended): for every valid grid the assembly emits exactly
`N_t*N_x` equations — `(N_t-2)*(N_x-2)` stencil, `N_x` initial-Dirichlet,
`N_x-2` initial-Neumann and `2*(N_t-1)` spatial-boundary equations — and the
stencil and boundary index sets are disjoint, but their union covers the full
unknown index set only up to the interior of the final time row
`{N_t-1} × [1, N_x-2]`, which neither component addresses (the equation count
still matches because the Neumann equations double up on the time-0 interior
indices already addressed by the Dirichlet equations). -/
theorem wave_equation_counts_and_index_sets {K : Type} [LinearOrderedField K]
    (Nt Nx : ℕ) (dt dx c h₁ h₂ : K) (f : ℕ → ℕ → K) (g₀ g₁ : ℕ → K)
    (h2t : 2 ≤ Nt) (h2x : 2 ≤ Nx) :
    (stencilEqs Nt Nx dt dx c f).length = (Nt - 2) * (Nx - 2) ∧
      (dirichletEqs Nx g₀).length = Nx ∧
      (neumannEqs Nx g₁).length = Nx - 2 ∧
      (leftBoundEqs Nt h₁).length + (rightBoundEqs Nt Nx h₂).length = 2 * (Nt - 1) ∧
      (waveEqs Nt Nx dt dx c h₁ h₂ f g₀ g₁).length = Nt * Nx ∧
      Disjoint (stencilIdxSet Nt Nx) (boundaryIdxSet Nt Nx) ∧
      stencilIdxSet Nt Nx ∪ boundaryIdxSet Nt Nx =
        fullIdxSet Nt Nx \ (({Nt - 1} : Finset ℕ) ×ˢ Finset.Ico 1 (Nx - 1)) := by
  have hs : (stencilEqs Nt Nx dt dx c f).length = (Nt - 2) * (Nx - 2) := by
    unfold stencilEqs
    rw [length_flatMap_map]
    simp only [List.length_range]
    rw [show Nt - 1 - 1 = Nt - 2 from by omega, show Nx - 1 - 1 = Nx - 2 from by omega]
  have hd : (dirichletEqs Nx g₀).length = Nx := by
    simp [dirichletEqs]
  have hn : (neumannEqs Nx g₁).length = Nx - 2 := by
    simp only [neumannEqs, List.length_map, List.length_range]
    omega
  have hl : (leftBoundEqs Nt h₁).length = Nt - 1 := by
    simp [leftBoundEqs]
  have hr : (rightBoundEqs Nt Nx h₂).length = Nt - 1 := by
    simp [rightBoundEqs]
  refine ⟨hs, hd, hn, by rw [hl, hr]; omega, ?_, ?_, ?_⟩
  · unfold waveEqs
    simp only [List.length_append, hs, hd, hn, hl, hr]
    obtain ⟨A, rfl⟩ := Nat.exists_eq_add_of_le h2t
    obtain ⟨B, rfl⟩ := Nat.exists_eq_add_of_le h2x
    have e1 : 2 + A - 2 = A := by omega
    have e2 : 2 + B - 2 = B := by omega
    have e3 : 2 + A - 1 = 1 + A := by omega
    rw [e1, e2, e3]
    ring
  · rw [Finset.disjoint_left]
    rintro ⟨i, j⟩ hst hbd
    simp only [stencilIdxSet, boundaryIdxSet, Finset.mem_union, Finset.mem_product,
      Finset.mem_Ico, Finset.mem_range, Finset.mem_singleton] at hst hbd
    omega
  · ext ⟨i, j⟩
    simp only [stencilIdxSet, boundaryIdxSet, fullIdxSet, Finset.mem_union,
      Finset.mem_product, Finset.mem_Ico, Finset.mem_range, Finset.mem_singleton,
      Finset.mem_sdiff]
    omega

/-- Claim C1 witness: the amended statement at the concrete grid
`N_t = 4`, `N_x = 5`. -/
theorem wave_equation_counts_and_index_sets_witness :
    (stencilEqs 4 5 (1 : ℚ) 1 1 (fun _ _ => 0)).length = (4 - 2) * (5 - 2) ∧
      (dirichletEqs 5 (fun _ => (0 : ℚ))).length = 5 ∧
      (neumannEqs 5 (fun _ => (0 : ℚ))).length = 5 - 2 ∧
      (leftBoundEqs 4 (0 : ℚ)).length + (rightBoundEqs 4 5 (0 : ℚ)).length = 2 * (4 - 1) ∧
      (waveEqs 4 5 (1 : ℚ) 1 1 0 0 (fun _ _ => 0) (fun _ => 0) (fun _ => 0)).length = 4 * 5 ∧
      Disjoint (stencilIdxSet 4 5) (boundaryIdxSet 4 5) ∧
      stencilIdxSet 4 5 ∪ boundaryIdxSet 4 5 =
        fullIdxSet 4 5 \ (({4 - 1} : Finset ℕ) ×ˢ Finset.Ico 1 (5 - 1)) :=
  wave_equation_counts_and_index_sets 4 5 (1 : ℚ) 1 1 0 0 (fun _ _ => 0)
    (fun _ => 0) (fun _ => 0) (by norm_num) (by norm_num)

/-- Claim C5, counterexample: on the grid `N_t = 3`, `N_x = 3` (first time
index 0, last time index 2, first/last spatial indices 0 and 2), the stencil
equation emitted at the interior center `(1, 1)` carries nonzero coefficients
at the first time index, the last time index, and the first and last spatial
indices. -/
theorem stencil_boundary_coeff_cex :
    stencilEqn (1 : ℚ) 1 1 (fun _ _ => 0) 1 1 ∈
        stencilEqs 3 3 (1 : ℚ) 1 1 (fun _ _ => 0) ∧
      (stencilEqn (1 : ℚ) 1 1 (fun _ _ => 0) 1 1).coeff 0 1 ≠ 0 ∧
      (stencilEqn (1 : ℚ) 1 1 (fun _ _ => 0) 1 1).coeff 2 1 ≠ 0 ∧
      (stencilEqn (1 : ℚ) 1 1 (fun _ _ => 0) 1 1).coeff 1 0 ≠ 0 ∧
      (stencilEqn (1 : ℚ) 1 1 (fun _ _ => 0) 1 1).coeff 1 2 ≠ 0 := by
  refine ⟨?_, ?_, ?_, ?_, ?_⟩
  · exact List.mem_flatMap.mpr ⟨0, by simp [stencilEqs],
      List.mem_map.mpr ⟨0, by simp, rfl⟩⟩
  all_goals norm_num [stencilEqn, delta, Pi.add_apply]

/-- Claim C5 (amended): the stencil assembler never emits an equation *at* a
boundary or initial index — every equation in its output is the stencil
centered at some interior index `(i, j)` with `1 ≤ i ≤ N_t-2` and
`1 ≤ j ≤ N_x-2` — but stencils centered adjacent to the boundary do place
nonzero coefficients at the first/last time index and first/last spatial
index; only the equations *pinning* a boundary or initial unknown come from
the boundary-condition loops. -/
theorem stencil_centers_interior {K : Type} [LinearOrderedField K]
    (Nt Nx : ℕ) (dt dx c : K) (f : ℕ → ℕ → K) (e : Eqn K)
    (he : e ∈ stencilEqs Nt Nx dt dx c f) :
    ∃ i j, 1 ≤ i ∧ i + 1 < Nt ∧ 1 ≤ j ∧ j + 1 < Nx ∧
      e = stencilEqn dt dx c f i j := by
  rcases List.mem_flatMap.mp he with ⟨a, ha, hmem⟩
  rcases List.mem_map.mp hmem with ⟨b, hb, rfl⟩
  rw [List.mem_range] at ha hb
  exact ⟨a + 1, b + 1, by omega, by omega, by omega, by omega, rfl⟩

/-- Claim C5 witness: the amended statement applied to a concrete emitted
stencil equation. -/
theorem stencil_centers_interior_witness :
    ∃ i j, 1 ≤ i ∧ i + 1 < 3 ∧ 1 ≤ j ∧ j + 1 < 3 ∧
      stencilEqn (1 : ℚ) 1 1 (fun _ _ => 0) 1 1 =
        stencilEqn (1 : ℚ) 1 1 (fun _ _ => 0) i j :=
  stencil_centers_interior 3 3 (1 : ℚ) 1 1 (fun _ _ => 0)
    (stencilEqn (1 : ℚ) 1 1 (fun _ _ => 0) 1 1)
    (List.mem_flatMap.mpr ⟨0, by simp [stencilEqs],
      List.mem_map.mpr ⟨0, by simp, rfl⟩⟩)

/-! ### The concrete 1-D wave scenario

`x ∈ [-π, π]`, `c = 0.5`, `N_x = 21`, `N_t = 100`, `t_f = 12` (so
`dt = 12/100` and `dx = 2π/21`), zero source, Dirichlet `h₁ = h₂ = 0`,
initial value `g₀(x) = sin(2πx/(x_2 - x_1))`, initial velocity `g₁ = 0`. -/

/-- Spatial coordinates `np.linspace(-π, π, 21)` of the wave example. -/
noncomputable def waveX : ℕ → ℝ := linspace (-Real.pi) Real.pi 21

/-- Initial condition of the wave example: `g_0 = sin(2πx/(x_2 - x_1))`. -/
noncomputable def g0wave : ℝ → ℝ :=
  fun x => Real.sin (2 * Real.pi * x / (Real.pi - -Real.pi))

/-- Time step of the wave example: `dt = t_f / float(N_t) = 12/100`. -/
noncomputable def waveDt : ℝ := gridDx 0 12 100

/-- Spatial step of the wave example: `dx = (x_2 - x_1)/float(N_x) = 2π/21`. -/
noncomputable def waveDx : ℝ := gridDx (-Real.pi) Real.pi 21

/-- The assembled equation system of the 1-D wave example. -/
noncomputable def waveSystem : List (Eqn ℝ) :=
  waveEqs 100 21 waveDt waveDx (1 / 2) 0 0 (fun _ _ => 0)
    (fun j => g0wave (waveX j)) (fun _ => 0)

lemma waveDt_ne : waveDt ≠ 0 := by
  rw [waveDt, gridDx]
  norm_num

lemma waveDx_pos : 0 < waveDx := by
  rw [waveDx, gridDx, show Real.pi - -Real.pi = 2 * Real.pi from by ring]
  positivity

lemma g0wave_left : g0wave (waveX 0) = 0 := by
  have hx : waveX 0 = -Real.pi := by
    simp [waveX, linspace]
  have harg : 2 * Real.pi * -Real.pi / (Real.pi - -Real.pi) = -Real.pi := by
    rw [show Real.pi - -Real.pi = 2 * Real.pi from by ring]
    field_simp
    ring
  rw [hx, g0wave, harg, Real.sin_neg, Real.sin_pi, neg_zero]

lemma g0wave_right : g0wave (waveX 20) = 0 := by
  have hx : waveX 20 = Real.pi := by
    simp only [waveX, linspace]
    norm_num
    ring
  have harg : 2 * Real.pi * Real.pi / (Real.pi - -Real.pi) = Real.pi := by
    rw [show Real.pi - -Real.pi = 2 * Real.pi from by ring]
    field_simp
  rw [hx, g0wave, harg, Real.sin_pi]

/-- The CTCS amplification factor `c²·dt²/dx²` of the wave example. -/
noncomputable def waveLam : ℝ := 1 / 2 * (1 / 2) * waveDt * waveDt / (waveDx * waveDx)

/-- The exact discrete solution of the assembled wave system, built by
time-marching: row 0 is the sampled initial condition, row 1 repeats it on the
interior (zero initial velocity) with zero edges, and each later row is
obtained by solving the CTCS stencil centered on the previous row for its
forward-time entry. -/
noncomputable def waveU : ℕ → ℕ → ℝ
  | 0, j => g0wave (waveX j)
  | 1, j => if 1 ≤ j ∧ j ≤ 19 then g0wave (waveX j) else 0
  | i + 2, j =>
    if j = 0 ∨ 20 ≤ j then 0
    else
      2 * waveU (i + 1) j - waveU i j
        + waveLam * (waveU (i + 1) (j + 1) + waveU (i + 1) (j - 1)
            - 2 * waveU (i + 1) j)

lemma waveU_rec (i j : ℕ) (hj0 : j ≠ 0) (hj20 : ¬ 20 ≤ j) :
    waveU (i + 2) j =
      2 * waveU (i + 1) j - waveU i j
        + waveLam * (waveU (i + 1) (j + 1) + waveU (i + 1) (j - 1)
            - 2 * waveU (i + 1) j) := by
  rw [waveU]
  rw [if_neg (by omega)]

lemma waveU_col0 (i : ℕ) (hi : 1 ≤ i) : waveU i 0 = 0 := by
  match i, hi with
  | 1, _ => simp [waveU]
  | (n + 2), _ => simp [waveU]

lemma waveU_col20 (i : ℕ) (hi : 1 ≤ i) : waveU i 20 = 0 := by
  match i, hi with
  | 1, _ => simp [waveU]
  | (n + 2), _ => simp [waveU]

/-- The constructed field satisfies every assembled equation of the wave
example — this is the existence half of the solvability of the system. -/
lemma waveU_satisfies : SatisfiesAll 100 21 waveSystem waveU := by
  intro e he
  have hdt := waveDt_ne
  have hdx := ne_of_gt waveDx_pos
  unfold waveSystem waveEqs at he
  rcases List.mem_append.mp he with hst | hrest
  · -- interior stencil equations
    rcases List.mem_flatMap.mp hst with ⟨a, ha, hmem⟩
    rcases List.mem_map.mp hmem with ⟨b, hb, rfl⟩
    rw [List.mem_range] at ha hb
    rw [dot_stencilEqn 100 21 waveDt waveDx (1 / 2) (fun _ _ => 0) (a + 1) (b + 1)
      waveU (by omega) (by omega)]
    have hrhs : (stencilEqn waveDt waveDx (1 / 2) (fun _ _ => (0 : ℝ))
        (a + 1) (b + 1)).rhs = 0 := rfl
    rw [hrhs]
    simp only [Nat.add_sub_cancel]
    rw [show a + 1 + 1 = a + 2 from rfl,
      waveU_rec a (b + 1) (by omega) (by omega), waveLam]
    field_simp
    ring
  rcases List.mem_append.mp hrest with hdir | hrest2
  · -- IVP Dirichlet equations
    rcases List.mem_map.mp hdir with ⟨j, hj, rfl⟩
    rw [List.mem_range] at hj
    rw [dot_dirichletEqn 100 21 (fun j => g0wave (waveX j)) j waveU
      (by norm_num) (by omega)]
    rfl
  rcases List.mem_append.mp hrest2 with hneu | hrest3
  · -- IVP Neumann equations
    rcases List.mem_map.mp hneu with ⟨b, hb, rfl⟩
    rw [List.mem_range] at hb
    rw [dot_neumannEqn 100 21 (fun _ => 0) (b + 1) waveU (by norm_num) (by omega)]
    have h1 : waveU 1 (b + 1) = g0wave (waveX (b + 1)) := by
      rw [waveU, if_pos ⟨by omega, by omega⟩]
    have h0 : waveU 0 (b + 1) = g0wave (waveX (b + 1)) := rfl
    rw [h1, h0, sub_self]
    rfl
  rcases List.mem_append.mp hrest3 with hleft | hright
  · -- left boundary column
    rcases List.mem_map.mp hleft with ⟨a, ha, rfl⟩
    rw [List.mem_range] at ha
    rw [dot_leftBoundEqn 100 21 0 (a + 1) waveU (by omega) (by norm_num)]
    exact waveU_col0 (a + 1) (by omega)
  · -- right boundary column
    rcases List.mem_map.mp hright with ⟨a, ha, rfl⟩
    rw [List.mem_range] at ha
    rw [dot_rightBoundEqn 100 21 0 (a + 1) waveU (by omega) (by norm_num)]
    exact waveU_col20 (a + 1) (by omega)

/-! ### Claims about the wave example's solution and its Neumann equations -/

/-- Claim C3: any field that satisfies every assembled equation of the
concrete 1-D wave scenario exactly (the round-trip contract of
`np.linalg.solve` on a nonsingular system) has its initial time row equal to
`g₀` sampled at each spatial coordinate and its two boundary columns equal to
0 at every time index. -/
theorem wave_solution_round_trip (u : ℕ → ℕ → ℝ)
    (hu : SatisfiesAll 100 21 waveSystem u) :
    (∀ j, j < 21 → u 0 j = g0wave (waveX j)) ∧
      (∀ i, i < 100 → u i 0 = 0 ∧ u i 20 = 0) := by
  have hdirichlet : ∀ j, j < 21 → u 0 j = g0wave (waveX j) := by
    intro j hj
    have hmem : dirichletEqn (fun j => g0wave (waveX j)) j ∈ waveSystem := by
      unfold waveSystem waveEqs
      refine List.mem_append.mpr (Or.inr (List.mem_append.mpr (Or.inl ?_)))
      exact List.mem_map.mpr ⟨j, List.mem_range.mpr hj, rfl⟩
    have h := hu _ hmem
    rwa [dot_dirichletEqn 100 21 (fun j => g0wave (waveX j)) j u
      (by norm_num) (by omega)] at h
  refine ⟨hdirichlet, ?_⟩
  intro i hi
  match i with
  | 0 =>
    constructor
    · rw [hdirichlet 0 (by omega)]
      exact g0wave_left
    · rw [hdirichlet 20 (by omega)]
      exact g0wave_right
  | (n + 1) =>
    constructor
    · have hmem : leftBoundEqn (0 : ℝ) (n + 1) ∈ waveSystem := by
        unfold waveSystem waveEqs
        refine List.mem_append.mpr (Or.inr (List.mem_append.mpr (Or.inr
          (List.mem_append.mpr (Or.inr (List.mem_append.mpr (Or.inl ?_)))))))
        exact List.mem_map.mpr ⟨n, List.mem_range.mpr (by omega), rfl⟩
      have h := hu _ hmem
      rwa [dot_leftBoundEqn 100 21 0 (n + 1) u (by omega) (by norm_num)] at h
    · have hmem : rightBoundEqn 21 (0 : ℝ) (n + 1) ∈ waveSystem := by
        unfold waveSystem waveEqs
        refine List.mem_append.mpr (Or.inr (List.mem_append.mpr (Or.inr
          (List.mem_append.mpr (Or.inr (List.mem_append.mpr (Or.inr ?_)))))))
        exact List.mem_map.mpr ⟨n, List.mem_range.mpr (by omega), rfl⟩
      have h := hu _ hmem
      rwa [dot_rightBoundEqn 100 21 0 (n + 1) u (by omega) (by norm_num)] at h

/-- Claim C3 witness: the explicitly constructed discrete solution satisfies
all assembled equations, and sample points of the conclusion hold for it. -/
theorem wave_solution_round_trip_witness :
    waveU 0 3 = g0wave (waveX 3) ∧ waveU 42 0 = 0 ∧ waveU 42 20 = 0 :=
  ⟨(wave_solution_round_trip waveU waveU_satisfies).1 3 (by norm_num),
    ((wave_solution_round_trip waveU waveU_satisfies).2 42 (by norm_num)).1,
    ((wave_solution_round_trip waveU waveU_satisfies).2 42 (by norm_num)).2⟩

/-- Claim C4, code behavior at the failing input: the emitted initial-velocity
Neumann equation has coefficient `+1` at the forward-time neighbor `(1, j)`
and `-1` at `(0, j)` as claimed, but the right-hand side the source stores is
the raw prescribed derivative `g₁(x_j)` with no `dt` factor: with `g₁ ≡ 1`
the stored right-hand side is `1`, which differs from
`dt * g₁(x_j) = (12/100) * 1` required by the claim and by the notebook's own
discretization `(u[1][j] - u[0][j])/Δt = g₁(x_j)`. -/
theorem neumann_rhs_missing_dt_factor :
    (neumannEqn (fun _ => (1 : ℚ)) 1).coeff 1 1 = 1 ∧
      (neumannEqn (fun _ => (1 : ℚ)) 1).coeff 0 1 = -1 ∧
      (neumannEqn (fun _ => (1 : ℚ)) 1).rhs = 1 ∧
      (12 : ℚ) / 100 * 1 ≠ 1 := by
  refine ⟨?_, ?_, rfl, by norm_num⟩
  · norm_num [neumannEqn, delta, Pi.add_apply]
  · norm_num [neumannEqn, delta, Pi.add_apply]

end FDM
